import Mathlib

/-!
Verification development for the EVSeqDNAFeatureProfiler region-extraction
scripts (`src/02_locus_enrichment/`).  The three extraction variants are
shallowly embedded here:

* `prepare_mtfeatures_forLOLA_regionDB.py`  — organelle (exact `"Mito"`) variant,
  modelled by `parse_attrs_mito`, `choose_name`, `mitoLineRows`, `runMito`,
  `write_beds`;
* `prepare_regionBD_forlola.py` — nuclear (heuristic `is_mito`) variant,
  modelled by `parse_attrs_nuc`, `is_mito`, `gffLineRows`, `runGff`, `gffWrite`;
* `regionDB/prepare_nuclear_regionDB.py` — nuclear regionDB variant, modelled
  by `patMito`, `parseGffLine`, `parse_gff`, `chrom_key`, `sort_bed`,
  `nuclearMainFiles`.

Python strings are embedded as `List Char` (`Str`), with the Python string
operations used by the scripts (`split`, `strip`, `lower`, `startswith`,
substring search, `int(...)`) reimplemented structurally so that all
definitions are executable and kernel-evaluable.
-/

/-- Python strings are modelled as lists of characters. -/
abbrev Str := List Char

/-- Coerce a Lean string literal into the model type. -/
def str (s : String) : Str := s.toList

/-- Python `s.lower()` (ASCII case folding suffices for the contig names used). -/
def lower (s : Str) : Str := s.map Char.toLower

/-- Python `a.startswith(b)` as a prefix test on character lists. -/
def isPre : Str → Str → Bool
  | [], _ => true
  | _ :: _, [] => false
  | a :: as, b :: bs => a == b && isPre as bs

/-- Python `needle in hay` substring test (used by `re`-style searching and
`"mitochond" in s`). -/
def containsSub (n : Str) : Str → Bool
  | [] => n == []
  | c :: t => isPre n (c :: t) || containsSub n t

/-- Python `s.split(sep)` for a one-character separator: keeps empty pieces,
and splitting the empty string yields `[""]`. -/
def pySplit (sep : Char) : Str → List Str
  | [] => [[]]
  | c :: t =>
    if c = sep then [] :: pySplit sep t
    else
      match pySplit sep t with
      | [] => [[c]]
      | h :: r => (c :: h) :: r

/-- Python `s.split(sep, 1)` when `sep` occurs in `s`: the pieces before and
after the first occurrence of `sep`. -/
def split1 (sep : Char) : Str → Str × Str
  | [] => ([], [])
  | c :: t =>
    if c = sep then ([], t)
    else
      let p := split1 sep t
      (c :: p.1, p.2)

/-- Python `s.strip()`: remove leading and trailing whitespace. -/
def pyStrip (s : Str) : Str :=
  ((s.dropWhile Char.isWhitespace).reverse.dropWhile Char.isWhitespace).reverse

/-- Python `s.strip(chr)` for a quote character: remove all leading and
trailing double-quote characters. -/
def stripQuotes (s : Str) : Str :=
  ((s.dropWhile (fun c => c == '"')).reverse.dropWhile (fun c => c == '"')).reverse

/-- Value of a nonempty digit string. -/
def digitsToNat (s : Str) : Nat :=
  s.foldl (fun n c => n * 10 + (c.toNat - ('0').toNat)) 0

/-- Decimal rendering of a natural number (Python `str(n)`). -/
def natToStr (n : Nat) : Str := Nat.toDigits 10 n

/-- Decimal rendering of an integer (Python `str(n)`). -/
def intToStr (n : Int) : Str :=
  if n < 0 then '-' :: natToStr n.natAbs else natToStr n.natAbs

/-- Python `int(s)`: strip whitespace, optional sign, then decimal digits;
`none` models the `ValueError` branch. -/
def pyInt (s : Str) : Option Int :=
  let t := pyStrip s
  match t with
  | [] => none
  | '-' :: ds =>
    if ds ≠ [] ∧ ds.all Char.isDigit then some (-(digitsToNat ds : Int)) else none
  | '+' :: ds =>
    if ds ≠ [] ∧ ds.all Char.isDigit then some ((digitsToNat ds : Int)) else none
  | ds =>
    if ds.all Char.isDigit then some ((digitsToNat ds : Int)) else none

/-!  ## AttributeParser (two source variants)

`parse_attrs` in `prepare_mtfeatures_forLOLA_regionDB.py` strips surrounding
double quotes in the `key value` branch; `parse_attrs` in
`prepare_regionBD_forlola.py` does not.  Both build a Python dict by
left-to-right insertion, so a later binding of a key overwrites an earlier
one.  The dict is modelled as a lookup function `Str → Option Str`. -/

/-- The `;`-separated attribute fields actually iterated by both parsers:
empty input or a lone `"."` yields nothing, and empty fields are skipped. -/
def attrFields (attrstr : Str) : List Str :=
  let t := pyStrip attrstr
  if t = [] ∨ t = str "." then []
  else (pySplit ';' t).filter (fun p => p ≠ [])

/-- One field of the mito-variant parser: `key=value` split at the first `=`,
else `key value` split at the first space with quotes stripped from the
value, else a bare key with empty value. -/
def fieldKVmito (p : Str) : Str × Str :=
  if p.contains '=' then split1 '=' p
  else if p.contains ' ' then
    let kv := split1 ' ' p
    (kv.1, stripQuotes kv.2)
  else (p, [])

/-- One field of the regionBD-variant parser: identical to `fieldKVmito`
except that the `key value` branch stores the value without quote
stripping. -/
def fieldKVnuc (p : Str) : Str × Str :=
  if p.contains '=' then split1 '=' p
  else if p.contains ' ' then split1 ' ' p
  else (p, [])

/-- Python dict update `d[k] = v`. -/
def updateMap (d : Str → Option Str) (k v : Str) : Str → Option Str :=
  fun q => if q = k then some v else d q

/-- `parse_attrs` of `prepare_mtfeatures_forLOLA_regionDB.py`, as a lookup
function. -/
def parse_attrs_mito (attrstr : Str) : Str → Option Str :=
  (attrFields attrstr).foldl
    (fun d p => let kv := fieldKVmito p; updateMap d kv.1 kv.2)
    (fun _ => none)

/-- `parse_attrs` of `prepare_regionBD_forlola.py`, as a lookup function. -/
def parse_attrs_nuc (attrstr : Str) : Str → Option Str :=
  (attrFields attrstr).foldl
    (fun d p => let kv := fieldKVnuc p; updateMap d kv.1 kv.2)
    (fun _ => none)

/-- The key/value pairs produced by the mito-variant parser, in field order. -/
def kvListMito (attrstr : Str) : List (Str × Str) :=
  (attrFields attrstr).map fieldKVmito

/-- The key/value pairs produced by the regionBD-variant parser, in field
order. -/
def kvListNuc (attrstr : Str) : List (Str × Str) :=
  (attrFields attrstr).map fieldKVnuc

/-- The last (latest) binding of key `k` in a key/value list. -/
def lastOcc (ps : List (Str × Str)) (k : Str) : Option (Str × Str) :=
  (ps.filter (fun kv => kv.1 == k)).getLast?

/-!  ## ContigClassifier (three source variants) -/

/-- `is_mito` of `prepare_regionBD_forlola.py`: heuristic lower-cased
prefix/substring/alias matching. -/
def is_mito (seqid : Str) : Bool :=
  if seqid = [] then false
  else
    let s := lower seqid
    if isPre (str "mito") s || isPre (str "mt") s || isPre (str "chrm") s
        || containsSub (str "mitochond") s then true
    else if s = str "m" ∨ s = str "chrm" ∨ s = str "chrm_m" then true
    else false

/-- `PAT_MITO.search` of `regionDB/prepare_nuclear_regionDB.py`: case
insensitive substring search for any alternative of
`Mito|mito|mt|chrM|mtdna|mitochond`. -/
def patMito (chrom : Str) : Bool :=
  let s := lower chrom
  containsSub (str "mito") s || containsSub (str "mito") s
    || containsSub (str "mt") s || containsSub (str "chrm") s
    || containsSub (str "mtdna") s || containsSub (str "mitochond") s

/-!  ## CategoryMapper -/

/-- A category mapping: category key paired with the list of GFF feature
types it collects (`FEATURE_MAPPING` in the sources). -/
abbrev Mapping := List (Str × List Str)

/-- Lookup in the reverse index `build_reverse_map` produces: the category
keys whose type list contains `ft`, in mapping order, once per occurrence
(`rev[v].append(key)` for each `v` in each category's list). -/
def revGet (mapping : Mapping) (ft : Str) : List Str :=
  mapping.foldl
    (fun acc kv => acc ++ (kv.2.filter (fun v => v == ft)).map (fun _ => kv.1))
    []

/-- `ftype in revmap`: a key is present in the reverse `defaultdict` exactly
when some append touched it, i.e. when its entry is nonempty. -/
def revHas (mapping : Mapping) (ft : Str) : Bool :=
  !(revGet mapping ft).isEmpty

/-- The category keys a record of type `ft` is emitted to:
`revmap.get(ftype, []).copy()`, extended with `ftype` itself when it is a
single-feature passthrough not present in the reverse map. -/
def catKeys (mapping : Mapping) (singles : List Str) (ft : Str) : List Str :=
  revGet mapping ft ++
    (if singles.contains ft ∧ revHas mapping ft = false then [ft] else [])

/-!  ## NameResolver -/

/-- Python `a or b` on an optional attribute value: an absent or empty
value falls through to `b`. -/
def pyOrS (a : Option Str) (b : Str) : Str :=
  match a with
  | some s => if s = [] then b else s
  | none => b

/-- The `attrd.get("Name") or attrd.get("ID") or attrd.get("IDREF") or
attrd.get("gene") or ftype` chain shared by both BED6 variants. -/
def resolveName (attrd : Str → Option Str) (ftype : Str) : Str :=
  pyOrS (attrd (str "Name"))
    (pyOrS (attrd (str "ID"))
      (pyOrS (attrd (str "IDREF")) (pyOrS (attrd (str "gene")) ftype)))

/-- `choose_name` of `prepare_mtfeatures_forLOLA_regionDB.py` (the inline
name-resolution block of `gff_to_beds` is behaviourally identical): returns
the resolved name and the updated fallback counter. -/
def choose_name (attrd : Str → Option Str) (ftype : Str) (counter : Str → Nat) :
    Str × (Str → Nat) :=
  let name := resolveName attrd ftype
  if name = [] then
    let n := counter ftype + 1
    (ftype ++ '_' :: natToStr n, fun q => if q = ftype then n else counter q)
  else (name, counter)

/-!  ## Region rows and per-category buffers -/

/-- A BED6 row as buffered by the two BED6-emitting variants.  The mito
variant stringifies the coordinates at row-construction time and the
regionBD variant at write time; both serializations are modelled in the
writers (`write_beds`, `gffWrite`), so the buffered row keeps the typed
values. -/
structure Row where
  seqid : Str
  start0 : Int
  bedEnd : Int
  name : Str
  score : Str
  strand : Str
deriving DecidableEq, Repr

/-- `defaultdict(list)` keyed by category: append `x` to the bucket of
`key`, creating the bucket at the end on first touch (Python dict
insertion order). -/
def appendIn {α : Type} (beds : List (Str × List α)) (key : Str) (x : α) :
    List (Str × List α) :=
  match beds with
  | [] => [(key, [x])]
  | (k, xs) :: rest =>
    if k = key then (k, xs ++ [x]) :: rest else (k, xs) :: appendIn rest key x

/-- Bucket lookup with the `defaultdict` default. -/
def bedsGet {α : Type} (beds : List (Str × List α)) (key : Str) : List α :=
  match beds.find? (fun kv => kv.1 == key) with
  | some kv => kv.2
  | none => []

/-- Column `i` of a tab-split line (the scripts unpack `cols[:9]`). -/
def colOf (line : Str) (i : Nat) : Str :=
  (pySplit '\t' line).getD i []

/-!  ## Per-line processing, organelle variant
(`extract_mito_features` of `prepare_mtfeatures_forLOLA_regionDB.py`). -/

/-- The strand normalization both BED6 variants apply before buffering:
`strand if strand in ("+", "-", ".") else "."`. -/
def strandNorm (strand : Str) : Str :=
  if strand = str "+" ∨ strand = str "-" ∨ strand = str "." then strand
  else str "."

/-- The score normalization both BED6 variants apply:
`score if score != "." else "0"`. -/
def scoreNorm (score : Str) : Str :=
  if score = str "." then str "0" else score

/-- The row a line contributes in the organelle variant, given the parsed
coordinates and the fallback-counter state. -/
def mitoRow (counter : Str → Nat) (line : Str) (s e : Int) : Row :=
  { seqid := colOf line 0
    start0 := max 0 (s - 1)
    bedEnd := e
    name := (choose_name (parse_attrs_mito (colOf line 8)) (colOf line 2) counter).1
    score := scoreNorm (colOf line 5)
    strand := strandNorm (colOf line 6) }

/-- Process one input line of `extract_mito_features`: returns the updated
fallback counter and the `(category, row)` pairs appended for this line
(empty when the line is skipped at any stage).  Note the counter is updated
by `choose_name` even when the record is then dropped for lacking a
category. -/
def mitoLineRows (mapping : Mapping) (singles : List Str)
    (counter : Str → Nat) (line : Str) : (Str → Nat) × List (Str × Row) :=
  if line = [] ∨ isPre (str "#") line then (counter, [])
  else if (pySplit '\t' line).length < 9 then (counter, [])
  else if colOf line 0 ≠ str "Mito" then (counter, [])
  else
    match pyInt (colOf line 3), pyInt (colOf line 4) with
    | some s, some e =>
      ((choose_name (parse_attrs_mito (colOf line 8)) (colOf line 2) counter).2,
       (catKeys mapping singles (colOf line 2)).map
         (fun k => (k, mitoRow counter line s e)))
    | _, _ => (counter, [])

/-- Fold of `extract_mito_features` over all input lines; the state is the
per-category buffers plus the fallback counter. -/
def runMito (mapping : Mapping) (singles : List Str) (lines : List Str) :
    List (Str × List Row) :=
  (lines.foldl
    (fun st line =>
      let r := mitoLineRows mapping singles st.2 line
      (r.2.foldl (fun b kr => appendIn b kr.1 kr.2) st.1, r.1))
    (([] : List (Str × List Row)), fun _ => 0)).1

/-- `write_beds`: one output file per buffered category, named
`<key>.bed`, each row serialized as its six tab-delimited columns. -/
def write_beds (beds : List (Str × List Row)) : List (Str × List (List Str)) :=
  beds.map (fun kv =>
    (kv.1 ++ str ".bed",
     kv.2.map (fun r =>
       [r.seqid, intToStr r.start0, intToStr r.bedEnd, r.name, r.score, r.strand])))

/-!  ## Per-line processing, nuclear heuristic variant
(`gff_to_beds` of `prepare_regionBD_forlola.py`). -/

/-- The row a line contributes in the nuclear heuristic variant (quote
keeping attribute parser, otherwise as `mitoRow`). -/
def gffRow (counter : Str → Nat) (line : Str) (s e : Int) : Row :=
  { seqid := colOf line 0
    start0 := max 0 (s - 1)
    bedEnd := e
    name := (choose_name (parse_attrs_nuc (colOf line 8)) (colOf line 2) counter).1
    score := scoreNorm (colOf line 5)
    strand := strandNorm (colOf line 6) }

/-- Process one input line of `gff_to_beds`.  Identical pipeline shape to
`mitoLineRows` except: comment test before the emptiness test, the
heuristic `is_mito` skip (guarded by `skip_mito`), and the quote-keeping
attribute parser. -/
def gffLineRows (mapping : Mapping) (singles : List Str) (skipMito : Bool)
    (counter : Str → Nat) (line : Str) : (Str → Nat) × List (Str × Row) :=
  if isPre (str "#") line then (counter, [])
  else if line = [] then (counter, [])
  else if (pySplit '\t' line).length < 9 then (counter, [])
  else if skipMito ∧ is_mito (colOf line 0) then (counter, [])
  else
    match pyInt (colOf line 3), pyInt (colOf line 4) with
    | some s, some e =>
      ((choose_name (parse_attrs_nuc (colOf line 8)) (colOf line 2) counter).2,
       (catKeys mapping singles (colOf line 2)).map
         (fun k => (k, gffRow counter line s e)))
    | _, _ => (counter, [])

/-- Fold of `gff_to_beds` over all input lines. -/
def runGff (mapping : Mapping) (singles : List Str) (skipMito : Bool)
    (lines : List Str) : List (Str × List Row) :=
  (lines.foldl
    (fun st line =>
      let r := gffLineRows mapping singles skipMito st.2 line
      (r.2.foldl (fun b kr => appendIn b kr.1 kr.2) st.1, r.1))
    (([] : List (Str × List Row)), fun _ => 0)).1

/-- The writing loop at the end of `gff_to_beds`: `<key>.bed` per buffered
category, rows serialized via `"\t".join(map(str, r))`. -/
def gffWrite (beds : List (Str × List Row)) : List (Str × List (List Str)) :=
  beds.map (fun kv =>
    (kv.1 ++ str ".bed",
     kv.2.map (fun r =>
       [r.seqid, intToStr r.start0, intToStr r.bedEnd, r.name, r.score, r.strand])))

/-!  ## Nuclear regionDB variant (`regionDB/prepare_nuclear_regionDB.py`) -/

/-- A `parse_gff` entry: `(chrom, start0, end)`. -/
abbrev Entry := Str × Int × Int

/-- Process one input line of `parse_gff`: comment and short-line skips, the
`PAT_MITO` contig skip, integer coordinate parsing, and the
`feature in feature_keys` filter; the emitted entry uses `start0 = start - 1`
(no clamping in this variant). -/
def parseGffLine (featureKeys : List Str) (line : Str) : Option (Str × Entry) :=
  if isPre (str "#") line then none
  else if (pySplit '\t' line).length < 9 then none
  else if patMito (pyStrip (colOf line 0)) then none
  else
    match pyInt (colOf line 3), pyInt (colOf line 4) with
    | some s, some e =>
      if featureKeys.contains (pyStrip (colOf line 2)) then
        some (pyStrip (colOf line 2), (pyStrip (colOf line 0), s - 1, e))
      else none
    | _, _ => none

/-- `parse_gff`: fold the per-line step into `defaultdict(list)` buffers. -/
def parse_gff (featureKeys : List Str) (lines : List Str) :
    List (Str × List Entry) :=
  lines.foldl
    (fun beds line =>
      match parseGffLine featureKeys line with
      | some fe => appendIn beds fe.1 fe.2
      | none => beds)
    []

/-- The sort key tier of `chrom_key`: Python's `(0, int)` and `(1, str)`
tuples. -/
inductive CKey where
  | num : Nat → CKey
  | lex : Str → CKey
deriving DecidableEq, Repr

/-- Lexicographic (code-point) strict comparison of Python strings. -/
def strLt : Str → Str → Bool
  | [], [] => false
  | [], _ :: _ => true
  | _ :: _, [] => false
  | a :: as, b :: bs =>
    if a.toNat < b.toNat then true
    else if b.toNat < a.toNat then false
    else strLt as bs

/-- `chrom_key`: the regex `^(?:chr)?(\d+)$` matches exactly the purely
numeric identifiers and the identifiers that are `chr` followed by digits;
matches sort in the numeric tier by their digit value, everything else in
the lexical tier by the raw identifier. -/
def chrom_key (c : Str) : CKey :=
  if isPre (str "chr") c then
    let t := c.drop 3
    if t ≠ [] ∧ t.all Char.isDigit then .num (digitsToNat t) else .lex c
  else if c ≠ [] ∧ c.all Char.isDigit then .num (digitsToNat c) else .lex c

/-- Strict comparison of sort-key tiers: Python tuple comparison of
`(0, int)` / `(1, str)`. -/
def ckLt : CKey → CKey → Bool
  | .num a, .num b => decide (a < b)
  | .num _, .lex _ => true
  | .lex _, .num _ => false
  | .lex a, .lex b => strLt a b

/-- The total preorder `sorted` uses on entries: key
`(chrom_key(chrom), start0, end)` compared lexicographically. -/
def entryLe (a b : Entry) : Bool :=
  if ckLt (chrom_key a.1) (chrom_key b.1) then true
  else if ckLt (chrom_key b.1) (chrom_key a.1) then false
  else if a.2.1 < b.2.1 then true
  else if b.2.1 < a.2.1 then false
  else a.2.2 ≤ b.2.2

/-- Stable insertion step for the model of Python `sorted`. -/
def pySortInsert {α : Type} (le : α → α → Bool) (x : α) : List α → List α
  | [] => [x]
  | y :: ys => if le x y then x :: y :: ys else y :: pySortInsert le x ys

/-- Python `sorted(l, key=...)` modelled as a structural stable sort with
respect to the induced total preorder (kernel-evaluable, unlike the
library merge sort). -/
def pySorted {α : Type} (le : α → α → Bool) : List α → List α
  | [] => []
  | x :: xs => pySortInsert le x (pySorted le xs)

/-- `sort_bed`: stable sort of the entries by
`(chrom_key(chrom), start0, end)`. -/
def sort_bed (entries : List Entry) : List Entry :=
  pySorted entryLe entries

/-- `FEATURE_MAP` of `regionDB/prepare_nuclear_regionDB.py`: feature type
to output file name. -/
def FEATURE_MAP : List (Str × Str) :=
  [ (str "gene", str "gene.bed"),
    (str "pseudogene", str "pseudogene.bed"),
    (str "centromere", str "centromere.bed"),
    (str "long_terminal_repeat", str "long_terminal_repeat.bed"),
    (str "mobile_genetic_element", str "mobile_genetic_element.bed"),
    (str "ncRNA", str "ncRNA.bed"),
    (str "origin_of_replication", str "origin_of_replication.bed"),
    (str "regulatory_region", str "regulatory_region.bed"),
    (str "rRNA", str "rRNA.bed"),
    (str "tRNA", str "tRNA.bed"),
    (str "snRNA", str "snRNA.bed"),
    (str "snoRNA", str "sno.bed"),
    (str "telomere", str "telomere.bed") ]

/-- Dict access `FEATURE_MAP[feat]`. -/
def featureMapGet (feat : Str) : Str :=
  match FEATURE_MAP.find? (fun kv => kv.1 == feat) with
  | some kv => kv.2
  | none => []

/-- `main` of `regionDB/prepare_nuclear_regionDB.py` as a function from the
input lines to the written files: for EVERY feature of `FEATURE_MAP`
(iterated in Python `sorted` order), a file named by `FEATURE_MAP`, holding
the sorted entries serialized as three tab-delimited columns — also when
the feature collected no entries. -/
def nuclearMainFiles (lines : List Str) : List (Str × List (List Str)) :=
  let featureKeys := FEATURE_MAP.map (fun kv => kv.1)
  let beds := parse_gff featureKeys lines
  (pySorted (fun a b => !(strLt b a)) featureKeys).map
    (fun feat =>
      (featureMapGet feat,
       (sort_bed (bedsGet beds feat)).map
         (fun e => [e.1, intToStr e.2.1, intToStr e.2.2])))

/-!  ## Shared lemmas -/

/-- Inserting into a list is a permutation of consing. -/
lemma pySortInsert_perm {α : Type} (le : α → α → Bool) (x : α) :
    ∀ l : List α, (pySortInsert le x l).Perm (x :: l) := by
  intro l
  induction l with
  | nil => rfl
  | cons y ys ih =>
    rw [pySortInsert]
    split
    · rfl
    · exact (List.Perm.cons y ih).trans (List.Perm.swap x y ys)

/-- The sort model permutes its input. -/
lemma pySorted_perm {α : Type} (le : α → α → Bool) :
    ∀ l : List α, (pySorted le l).Perm l := by
  intro l
  induction l with
  | nil => rfl
  | cons x xs ih =>
    rw [pySorted]
    exact ((pySortInsert_perm le x (pySorted le xs)).trans
      (List.Perm.cons x ih))

/-- Looking up a key after folding Python dict updates yields the value of
the last binding of that key, falling back to the initial dict. -/
lemma lookup_foldl_update (k : Str) (ps : List (Str × Str)) :
    ∀ d : Str → Option Str,
      (ps.foldl (fun d kv => updateMap d kv.1 kv.2) d) k =
        (lastOcc ps k).elim (d k) (fun kv => some kv.2) := by
  induction ps using List.reverseRecOn with
  | nil => intro d; simp [lastOcc]
  | append_singleton l kv ih =>
    intro d
    rw [List.foldl_append]
    simp only [List.foldl_cons, List.foldl_nil]
    by_cases h : kv.1 = k
    · simp [lastOcc, List.filter_append, h, updateMap, List.getLast?_concat]
    · have hb : (kv.1 == k) = false := by simp [h]
      simp only [lastOcc, List.filter_append, List.filter_cons, hb, List.filter_nil,
        List.append_nil, updateMap, Bool.false_eq_true, if_false]
      rw [if_neg (fun hk => h hk.symm)]
      exact ih d

/-- `Option.elim` with a `none` default is `Option.map`. -/
lemma elim_none_eq_map (o : Option (Str × Str)) :
    (o.elim none (fun kv => some kv.2) : Option Str) = o.map (fun kv => kv.2) := by
  cases o <;> rfl

lemma parse_attrs_mito_eq_lastOcc (s k : Str) :
    parse_attrs_mito s k = (lastOcc (kvListMito s) k).map (fun kv => kv.2) := by
  have h := lookup_foldl_update k (kvListMito s) (fun _ => none)
  rw [kvListMito, List.foldl_map] at h
  rw [parse_attrs_mito, h, ← kvListMito, elim_none_eq_map]

lemma parse_attrs_nuc_eq_lastOcc (s k : Str) :
    parse_attrs_nuc s k = (lastOcc (kvListNuc s) k).map (fun kv => kv.2) := by
  have h := lookup_foldl_update k (kvListNuc s) (fun _ => none)
  rw [kvListNuc, List.foldl_map] at h
  rw [parse_attrs_nuc, h, ← kvListNuc, elim_none_eq_map]

/-- Claim C8: in both parser variants, when a key appears in more than one
attribute field the resulting mapping binds it to the value of its last
(latest) occurrence — here proved in the stronger unconditional form: the
lookup of any key equals the value of the last field binding it (and is
absent when no field binds it). -/
theorem claim_C8_attrs_last_wins (s k : Str) :
    parse_attrs_mito s k = (lastOcc (kvListMito s) k).map (fun kv => kv.2) ∧
    parse_attrs_nuc s k = (lastOcc (kvListNuc s) k).map (fun kv => kv.2) :=
  ⟨parse_attrs_mito_eq_lastOcc s k, parse_attrs_nuc_eq_lastOcc s k⟩

/-- Claim C9, counterexample: the claim asserts quote stripping in every
parser variant, but the `prepare_regionBD_forlola.py` parser stores the
value of the field `gene "abc"` with its surrounding quotes intact. -/
theorem claim_C9_counterexample :
    parse_attrs_nuc (str "gene \"abc\"") (str "gene") = some (str "\"abc\"") ∧
    str "\"abc\"" ≠ stripQuotes (str "\"abc\"") := by
  constructor
  · decide
  · decide

/-- Claim C9, amended: for a `key value` attribute field (no `=`, split at
the first space), the mito-variant parser stores the value with surrounding
double quotes stripped, while the regionBD-variant parser stores the value
unchanged (quotes retained); concretely, `gene "abc"` maps `gene` to `abc`
in the former and to `"abc"` in the latter. -/
theorem claim_C9_amended (p : Str) (h1 : p.contains '=' = false)
    (h2 : p.contains ' ' = true) :
    fieldKVmito p = ((split1 ' ' p).1, stripQuotes (split1 ' ' p).2) ∧
    fieldKVnuc p = split1 ' ' p ∧
    parse_attrs_mito (str "gene \"abc\"") (str "gene") = some (str "abc") ∧
    parse_attrs_nuc (str "gene \"abc\"") (str "gene") = some (str "\"abc\"") := by
  refine ⟨?_, ?_, by decide, by decide⟩
  · rw [fieldKVmito, if_neg (by rw [h1]; exact Bool.false_ne_true), if_pos h2]
  · rw [fieldKVnuc, if_neg (by rw [h1]; exact Bool.false_ne_true), if_pos h2]

/-- Witness for C9 amended, at the concrete field `gene "abc"`. -/
theorem claim_C9_amended_witness :
    fieldKVmito (str "gene \"abc\"") =
      ((split1 ' ' (str "gene \"abc\"")).1,
        stripQuotes (split1 ' ' (str "gene \"abc\"")).2) ∧
    fieldKVnuc (str "gene \"abc\"") = split1 ' ' (str "gene \"abc\"") := by
  have h := claim_C9_amended (str "gene \"abc\"") (by decide) (by decide)
  exact ⟨h.1, h.2.1⟩

/-- Structure of the organelle per-line step: either the line is skipped, or
the contig is exactly `"Mito"`, both coordinates parse, and one identical
row is produced per looked-up category key. -/
lemma mitoLineRows_spec (m : Mapping) (si : List Str) (c : Str → Nat)
    (line : Str) :
    (mitoLineRows m si c line).2 = [] ∨
    (colOf line 0 = str "Mito" ∧
      ∃ s e, pyInt (colOf line 3) = some s ∧ pyInt (colOf line 4) = some e ∧
        (mitoLineRows m si c line).2 =
          (catKeys m si (colOf line 2)).map (fun k => (k, mitoRow c line s e))) := by
  unfold mitoLineRows
  split
  · exact Or.inl rfl
  split
  · exact Or.inl rfl
  split
  · exact Or.inl rfl
  rename_i h1 h2 h3
  split
  · rename_i s e hs he
    exact Or.inr ⟨not_not.mp h3, s, e, hs, he, rfl⟩
  · exact Or.inl rfl

/-- Structure of the nuclear heuristic per-line step: either the line is
skipped, or (when mito skipping is on) the contig fails the `is_mito`
heuristic, both coordinates parse, and one identical row is produced per
looked-up category key. -/
lemma gffLineRows_spec (m : Mapping) (si : List Str) (sm : Bool)
    (c : Str → Nat) (line : Str) :
    (gffLineRows m si sm c line).2 = [] ∨
    ((sm = true → is_mito (colOf line 0) = false) ∧
      ∃ s e, pyInt (colOf line 3) = some s ∧ pyInt (colOf line 4) = some e ∧
        (gffLineRows m si sm c line).2 =
          (catKeys m si (colOf line 2)).map (fun k => (k, gffRow c line s e))) := by
  unfold gffLineRows
  split
  · exact Or.inl rfl
  split
  · exact Or.inl rfl
  split
  · exact Or.inl rfl
  split
  · exact Or.inl rfl
  rename_i h1 h2 h3 h4
  split
  · rename_i s e hs he
    refine Or.inr ⟨?_, s, e, hs, he, rfl⟩
    intro hsm
    cases h : is_mito (colOf line 0)
    · rfl
    · exact absurd ⟨hsm, h⟩ h4
  · exact Or.inl rfl

/-- Structure of the nuclear regionDB per-line step: an emitted entry means
the stripped contig fails `PAT_MITO`, both coordinates parse, and the entry
is `(chrom, start − 1, end)` for the stripped contig. -/
lemma parseGffLine_spec (fk : List Str) (line : Str) (f : Str) (ent : Entry)
    (h : parseGffLine fk line = some (f, ent)) :
    patMito (pyStrip (colOf line 0)) = false ∧
    ∃ s, pyInt (colOf line 3) = some s ∧ pyInt (colOf line 4) = some ent.2.2 ∧
      f = pyStrip (colOf line 2) ∧ ent.1 = pyStrip (colOf line 0) ∧
      ent.2.1 = s - 1 := by
  unfold parseGffLine at h
  split at h
  · exact absurd h (by simp)
  split at h
  · exact absurd h (by simp)
  split at h
  · exact absurd h (by simp)
  rename_i h1 h2 h3
  split at h
  · rename_i s e hs he
    split at h
    · rename_i hin
      injection h with h
      injection h with hf hent
      subst hf
      subst hent
      exact ⟨Bool.eq_false_iff.mpr (fun hb => h3 hb), s, hs, he, rfl, rfl, rfl⟩
    · exact absurd h (by simp)
  · exact absurd h (by simp)

/-- Claim C5: two-run disjointness of the organelle and nuclear partitions.
On any same input line, the organelle-only run (exact `"Mito"` match) and a
nuclear-only run (heuristic `is_mito` skip, or `PAT_MITO` skip) never both
emit: a contig classified organelle is never emitted by either nuclear-only
variant, and a contig a nuclear variant emits is never emitted by the
organelle-only run. -/
theorem claim_C5_partition_disjoint (m1 : Mapping) (s1 : List Str)
    (c1 : Str → Nat) (m2 : Mapping) (s2 : List Str) (c2 : Str → Nat)
    (fk : List Str) (line : Str) :
    ((!(mitoLineRows m1 s1 c1 line).2.isEmpty) &&
      (!(gffLineRows m2 s2 true c2 line).2.isEmpty)) = false ∧
    ((!(mitoLineRows m1 s1 c1 line).2.isEmpty) &&
      (parseGffLine fk line).isSome) = false := by
  constructor
  · rcases mitoLineRows_spec m1 s1 c1 line with h0 | ⟨hseq, _⟩
    · simp [h0]
    · rcases gffLineRows_spec m2 s2 true c2 line with g0 | ⟨gmito, _⟩
      · simp [g0]
      · have hm := gmito rfl
        rw [hseq] at hm
        exact absurd hm (by decide)
  · rcases mitoLineRows_spec m1 s1 c1 line with h0 | ⟨hseq, _⟩
    · simp [h0]
    · cases hp : parseGffLine fk line with
      | none => simp
      | some fe =>
        obtain ⟨hpat, _⟩ := parseGffLine_spec fk line fe.1 fe.2 (by rw [hp])
        rw [hseq] at hpat
        exact absurd hpat (by decide)

/-- The strand column values BED6 admits. -/
def strandOkB (s : Str) : Bool :=
  s == str "+" || s == str "-" || s == str "."

lemma strandNorm_ok (s : Str) : strandOkB (strandNorm s) = true := by
  rw [strandNorm]
  split
  · rename_i h
    rcases h with h | h | h <;> subst h <;> decide
  · decide

/-- Claim C10: every row buffered by the two BED6-emitting variants carries
a strand in `{+, -, .}`; the strand column is the source strand when it is
in that set and `"."` otherwise. -/
theorem claim_C10_strand_normalized (m1 : Mapping) (s1 : List Str)
    (c1 : Str → Nat) (m2 : Mapping) (s2 : List Str) (sm : Bool)
    (c2 : Str → Nat) (line : Str) :
    ((mitoLineRows m1 s1 c1 line).2.all (fun kr => strandOkB kr.2.strand)) = true ∧
    ((gffLineRows m2 s2 sm c2 line).2.all (fun kr => strandOkB kr.2.strand)) = true ∧
    (∀ st : Str, st ≠ str "+" → st ≠ str "-" → st ≠ str "." →
      strandNorm st = str ".") ∧
    (∀ kr, kr ∈ (mitoLineRows m1 s1 c1 line).2 →
      kr.2.strand = strandNorm (colOf line 6)) ∧
    (∀ kr, kr ∈ (gffLineRows m2 s2 sm c2 line).2 →
      kr.2.strand = strandNorm (colOf line 6)) := by
  refine ⟨?_, ?_, ?_, ?_, ?_⟩
  · rcases mitoLineRows_spec m1 s1 c1 line with h0 | ⟨_, s, e, _, _, hrows⟩
    · simp [h0]
    · rw [hrows]
      apply List.all_eq_true.mpr
      intro kr hkr
      obtain ⟨k, _, hk⟩ := List.mem_map.mp hkr
      rw [← hk]
      exact strandNorm_ok (colOf line 6)
  · rcases gffLineRows_spec m2 s2 sm c2 line with h0 | ⟨_, s, e, _, _, hrows⟩
    · simp [h0]
    · rw [hrows]
      apply List.all_eq_true.mpr
      intro kr hkr
      obtain ⟨k, _, hk⟩ := List.mem_map.mp hkr
      rw [← hk]
      exact strandNorm_ok (colOf line 6)
  · intro st h1 h2 h3
    rw [strandNorm, if_neg]
    rintro (h | h | h) <;> [exact h1 h; exact h2 h; exact h3 h]
  · intro kr hmem
    rcases mitoLineRows_spec m1 s1 c1 line with h0 | ⟨_, s, e, _, _, hrows⟩
    · rw [h0] at hmem; exact absurd hmem (List.not_mem_nil kr)
    · rw [hrows] at hmem
      obtain ⟨k, _, hk⟩ := List.mem_map.mp hmem
      rw [← hk]
      rfl
  · intro kr hmem
    rcases gffLineRows_spec m2 s2 sm c2 line with h0 | ⟨_, s, e, _, _, hrows⟩
    · rw [h0] at hmem; exact absurd hmem (List.not_mem_nil kr)
    · rw [hrows] at hmem
      obtain ⟨k, _, hk⟩ := List.mem_map.mp hmem
      rw [← hk]
      rfl

/-- Witness for C10 at a concrete record whose strand field is the invalid
`"x"`: the buffered strand is normalized and in the admitted set. -/
theorem claim_C10_witness :
    ((mitoLineRows [(str "gene", [str "gene"])] [] (fun _ => 0)
        (str "Mito\tsrc\tgene\t1\t10\t.\tx\t.\tID=G")).2.all
      (fun kr => strandOkB kr.2.strand)) = true ∧
    strandNorm (str "x") = str "." := by
  have h := claim_C10_strand_normalized [(str "gene", [str "gene"])] []
    (fun _ => 0) [(str "gene", [str "gene"])] [] true (fun _ => 0)
    (str "Mito\tsrc\tgene\t1\t10\t.\tx\t.\tID=G")
  exact ⟨h.1, h.2.2.1 (str "x") (by decide) (by decide) (by decide)⟩

/-- Claim C1, counterexample: in the nuclear regionDB variant (`parse_gff`)
the emitted start0 is `start − 1` without clamping, so for the parseable
source start `0` the emitted region carries `start0 = −1`, which differs
from `max(0, start − 1) = 0`; the claim's "in every extraction variant"
fails. -/
theorem claim_C1_counterexample :
    parseGffLine [str "gene"] (str "chr1\tsrc\tgene\t0\t5\t.\t+\t.\tID=G")
      = some (str "gene", (str "chr1", -1, 5)) ∧
    pyInt (colOf (str "chr1\tsrc\tgene\t0\t5\t.\t+\t.\tID=G") 3) = some 0 ∧
    (-1 : Int) ≠ max 0 ((0 : Int) - 1) := by
  refine ⟨by decide, by decide, by decide⟩

/-- Coordinates of any row the organelle variant emits. -/
lemma mito_emitted_coords (m : Mapping) (si : List Str) (c : Str → Nat)
    (line k : Str) (row : Row) (hmem : (k, row) ∈ (mitoLineRows m si c line).2) :
    ∃ s e, pyInt (colOf line 3) = some s ∧ pyInt (colOf line 4) = some e ∧
      row.start0 = max 0 (s - 1) ∧ row.bedEnd = e := by
  rcases mitoLineRows_spec m si c line with h0 | ⟨_, s, e, hs, he, hrows⟩
  · rw [h0] at hmem; exact absurd hmem (List.not_mem_nil _)
  · rw [hrows] at hmem
    obtain ⟨k', _, hk⟩ := List.mem_map.mp hmem
    have hrow : row = mitoRow c line s e := congrArg Prod.snd hk.symm
    exact ⟨s, e, hs, he, by rw [hrow]; rfl, by rw [hrow]; rfl⟩

/-- Coordinates of any row the nuclear heuristic variant emits. -/
lemma gff_emitted_coords (m : Mapping) (si : List Str) (sm : Bool)
    (c : Str → Nat) (line k : Str) (row : Row)
    (hmem : (k, row) ∈ (gffLineRows m si sm c line).2) :
    ∃ s e, pyInt (colOf line 3) = some s ∧ pyInt (colOf line 4) = some e ∧
      row.start0 = max 0 (s - 1) ∧ row.bedEnd = e := by
  rcases gffLineRows_spec m si sm c line with h0 | ⟨_, s, e, hs, he, hrows⟩
  · rw [h0] at hmem; exact absurd hmem (List.not_mem_nil _)
  · rw [hrows] at hmem
    obtain ⟨k', _, hk⟩ := List.mem_map.mp hmem
    have hrow : row = gffRow c line s e := congrArg Prod.snd hk.symm
    exact ⟨s, e, hs, he, by rw [hrow]; rfl, by rw [hrow]; rfl⟩

/-- Coordinates of any entry the nuclear regionDB variant emits. -/
lemma parse_gff_emitted_coords (fk : List Str) (line f : Str) (ent : Entry)
    (h : parseGffLine fk line = some (f, ent)) :
    ∃ s, pyInt (colOf line 3) = some s ∧ pyInt (colOf line 4) = some ent.2.2 ∧
      ent.2.1 = s - 1 := by
  obtain ⟨_, s, hs, he, _, _, hstart⟩ := parseGffLine_spec fk line f ent h
  exact ⟨s, hs, he, hstart⟩

/-- Claim C1, amended: in the organelle variant and the nuclear heuristic
variant every emitted region satisfies `start0 = max(0, start − 1)` with
the end coordinate retained as parsed; the nuclear regionDB variant
(`parse_gff`) instead emits `start0 = start − 1` without clamping (equal
whenever `start ≥ 1`), also retaining the end coordinate. -/
theorem claim_C1_amended :
    (∀ (m : Mapping) (si : List Str) (c : Str → Nat) (line k : Str) (row : Row),
      (k, row) ∈ (mitoLineRows m si c line).2 →
      ∃ s e, pyInt (colOf line 3) = some s ∧ pyInt (colOf line 4) = some e ∧
        row.start0 = max 0 (s - 1) ∧ row.bedEnd = e) ∧
    (∀ (m : Mapping) (si : List Str) (sm : Bool) (c : Str → Nat)
        (line k : Str) (row : Row),
      (k, row) ∈ (gffLineRows m si sm c line).2 →
      ∃ s e, pyInt (colOf line 3) = some s ∧ pyInt (colOf line 4) = some e ∧
        row.start0 = max 0 (s - 1) ∧ row.bedEnd = e) ∧
    (∀ (fk : List Str) (line f : Str) (ent : Entry),
      parseGffLine fk line = some (f, ent) →
      ∃ s, pyInt (colOf line 3) = some s ∧ pyInt (colOf line 4) = some ent.2.2 ∧
        ent.2.1 = s - 1) :=
  ⟨fun m si c line k row hmem => mito_emitted_coords m si c line k row hmem,
   fun m si sm c line k row hmem => gff_emitted_coords m si sm c line k row hmem,
   fun fk line f ent h => parse_gff_emitted_coords fk line f ent h⟩

/-- Witness for C1 amended, at the spec's end-to-end example records. -/
theorem claim_C1_amended_witness :
    (∃ s e, pyInt (colOf (str "Mito\tsrc\tgene\t1\t10\t.\t+\t.\tID=G1") 3) = some s ∧
      pyInt (colOf (str "Mito\tsrc\tgene\t1\t10\t.\t+\t.\tID=G1") 4) = some e ∧
      (Row.mk (str "Mito") 0 10 (str "G1") (str "0") (str "+")).start0 = max 0 (s - 1) ∧
      (Row.mk (str "Mito") 0 10 (str "G1") (str "0") (str "+")).bedEnd = e) ∧
    (∃ s, pyInt (colOf (str "chr1\tsrc\tgene\t5\t20\t.\t-\t.\tID=G2") 3) = some s ∧
      pyInt (colOf (str "chr1\tsrc\tgene\t5\t20\t.\t-\t.\tID=G2") 4) = some ((20 : Int)) ∧
      (4 : Int) = s - 1) := by
  constructor
  · exact claim_C1_amended.1 [(str "gene", [str "gene"])] [] (fun _ => 0)
      (str "Mito\tsrc\tgene\t1\t10\t.\t+\t.\tID=G1") (str "gene")
      (Row.mk (str "Mito") 0 10 (str "G1") (str "0") (str "+")) (by decide)
  · exact claim_C1_amended.2.2 [str "gene"] (str "chr1\tsrc\tgene\t5\t20\t.\t-\t.\tID=G2")
      (str "gene") (str "chr1", (4 : Int), (20 : Int)) (by decide)

/-- Claim C2, counterexample: for the record `Mito src gene 0 5 . + . ID=G`
the input is well-formed in the claim's sense (`end ≥ start`: `5 ≥ 0`), yet
the organelle variant emits `start0 = 0 ≠ start − 1 = −1`, and the nuclear
regionDB variant emits `start0 = −1 < 0` for the corresponding nuclear
record, so the claimed conjunction fails. -/
theorem claim_C2_counterexample :
    (mitoLineRows [(str "gene", [str "gene"])] [] (fun _ => 0)
        (str "Mito\tsrc\tgene\t0\t5\t.\t+\t.\tID=G")).2
      = [(str "gene", Row.mk (str "Mito") 0 5 (str "G") (str "0") (str "+"))] ∧
    (0 : Int) ≤ 5 ∧
    (0 : Int) ≠ (0 : Int) - 1 ∧
    parseGffLine [str "gene"] (str "chr1\tsrc\tgene\t0\t5\t.\t+\t.\tID=G")
      = some (str "gene", (str "chr1", -1, 5)) ∧
    ¬((0 : Int) ≤ -1) := by
  refine ⟨by decide, by decide, by decide, by decide, by decide⟩

/-- Claim C2, amended: for every emitted region whose parsed source start
satisfies `start ≥ 1` (1-based annotation coordinates), the emitted start0
equals `start − 1` and is nonnegative, in every extraction variant. -/
theorem claim_C2_amended :
    (∀ (m : Mapping) (si : List Str) (c : Str → Nat) (line k : Str) (row : Row)
        (s : Int), (k, row) ∈ (mitoLineRows m si c line).2 →
      pyInt (colOf line 3) = some s → 1 ≤ s →
      row.start0 = s - 1 ∧ 0 ≤ row.start0) ∧
    (∀ (m : Mapping) (si : List Str) (sm : Bool) (c : Str → Nat)
        (line k : Str) (row : Row) (s : Int),
      (k, row) ∈ (gffLineRows m si sm c line).2 →
      pyInt (colOf line 3) = some s → 1 ≤ s →
      row.start0 = s - 1 ∧ 0 ≤ row.start0) ∧
    (∀ (fk : List Str) (line f : Str) (ent : Entry) (s : Int),
      parseGffLine fk line = some (f, ent) →
      pyInt (colOf line 3) = some s → 1 ≤ s →
      ent.2.1 = s - 1 ∧ 0 ≤ ent.2.1) := by
  refine ⟨?_, ?_, ?_⟩
  · intro m si c line k row s hmem hparse hge
    obtain ⟨s', e', hs', _, hstart, _⟩ := mito_emitted_coords m si c line k row hmem
    rw [hparse] at hs'
    injection hs' with hs'
    subst hs'
    rw [hstart]
    omega
  · intro m si sm c line k row s hmem hparse hge
    obtain ⟨s', e', hs', _, hstart, _⟩ := gff_emitted_coords m si sm c line k row hmem
    rw [hparse] at hs'
    injection hs' with hs'
    subst hs'
    rw [hstart]
    omega
  · intro fk line f ent s h hparse hge
    obtain ⟨s', hs', _, hstart⟩ := parse_gff_emitted_coords fk line f ent h
    rw [hparse] at hs'
    injection hs' with hs'
    subst hs'
    rw [hstart]
    omega

/-- Witness for C2 amended, at the spec's end-to-end example records. -/
theorem claim_C2_amended_witness :
    ((Row.mk (str "Mito") 0 10 (str "G1") (str "0") (str "+")).start0 = 1 - 1 ∧
      0 ≤ (Row.mk (str "Mito") 0 10 (str "G1") (str "0") (str "+")).start0) ∧
    ((4 : Int) = 5 - 1 ∧ (0 : Int) ≤ 4) := by
  constructor
  · exact claim_C2_amended.1 [(str "gene", [str "gene"])] [] (fun _ => 0)
      (str "Mito\tsrc\tgene\t1\t10\t.\t+\t.\tID=G1") (str "gene")
      (Row.mk (str "Mito") 0 10 (str "G1") (str "0") (str "+")) 1 (by decide)
      (by decide) (by decide)
  · exact claim_C2_amended.2.2 [str "gene"] (str "chr1\tsrc\tgene\t5\t20\t.\t-\t.\tID=G2")
      (str "gene") (str "chr1", (4 : Int), (20 : Int)) 5 (by decide) (by decide)
      (by decide)

/-- Claim C3, counterexample: three consecutive `gene` records with no
usable attributes resolve to the name `gene` each time (the feature type,
which is nonempty, wins the fallback chain), not to `gene_1`, `gene_2`,
`gene_3` as claimed. -/
theorem claim_C3_counterexample :
    (bedsGet (runMito [(str "gene", [str "gene"])] []
        [str "Mito\tsrc\tgene\t1\t10\t.\t+\t.\t.",
         str "Mito\tsrc\tgene\t2\t10\t.\t+\t.\t.",
         str "Mito\tsrc\tgene\t3\t10\t.\t+\t.\t."]) (str "gene")).map Row.name
      = [str "gene", str "gene", str "gene"] ∧
    str "gene" ≠ str "gene_1" := by
  refine ⟨by decide, by decide⟩

/-- Claim C3, amended: for records of feature type `gene` lacking the
`Name`, `ID`, `IDREF` and `gene` attributes, the resolved display name is
the feature type `gene` itself and the fallback counter is untouched (the
`{ftype}_{n}` fallback fires only when even the feature type is empty);
in particular three such consecutive records resolve to `gene`, `gene`,
`gene`. -/
theorem claim_C3_amended :
    (∀ (attrd : Str → Option Str) (c : Str → Nat),
      attrd (str "Name") = none → attrd (str "ID") = none →
      attrd (str "IDREF") = none → attrd (str "gene") = none →
      choose_name attrd (str "gene") c = (str "gene", c)) ∧
    (bedsGet (runMito [(str "gene", [str "gene"])] []
        [str "Mito\tsrc\tgene\t1\t10\t.\t+\t.\t.",
         str "Mito\tsrc\tgene\t2\t10\t.\t+\t.\t.",
         str "Mito\tsrc\tgene\t3\t10\t.\t+\t.\t."]) (str "gene")).map Row.name
      = [str "gene", str "gene", str "gene"] := by
  constructor
  · intro attrd c h1 h2 h3 h4
    have hres : resolveName attrd (str "gene") = str "gene" := by
      rw [resolveName, h1, h2, h3, h4]
      rfl
    rw [choose_name, hres, if_neg (by decide)]
  · decide

/-- Witness for C3 amended, at the all-absent attribute mapping. -/
theorem claim_C3_amended_witness :
    choose_name (fun _ => none) (str "gene") (fun _ => 0)
      = (str "gene", fun _ => 0) :=
  claim_C3_amended.1 (fun _ => none) (fun _ => 0) rfl rfl rfl rfl

/-- Appending into a `defaultdict(list)` bucket extends exactly that
bucket. -/
lemma bedsGet_appendIn_same {α : Type} (b : List (Str × List α)) (k : Str)
    (x : α) : bedsGet (appendIn b k x) k = bedsGet b k ++ [x] := by
  induction b with
  | nil => simp [appendIn, bedsGet]
  | cons kv rest ih =>
    obtain ⟨k', xs⟩ := kv
    by_cases h : k' = k
    · subst h
      simp [appendIn, bedsGet]
    · have hb : (k' == k) = false := by simp [h]
      simp only [appendIn, if_neg h, bedsGet, List.find?_cons, hb]
      exact ih

/-- Appending into a `defaultdict(list)` bucket leaves the other buckets
unchanged. -/
lemma bedsGet_appendIn_ne {α : Type} (b : List (Str × List α)) (k k' : Str)
    (x : α) (h : k' ≠ k) : bedsGet (appendIn b k x) k' = bedsGet b k' := by
  have hkk : k ≠ k' := fun he => h he.symm
  induction b with
  | nil => simp [appendIn, bedsGet, hkk]
  | cons kv rest ih =>
    obtain ⟨k1, xs⟩ := kv
    by_cases hk : k1 = k
    · subst hk
      simp [appendIn, bedsGet, hkk]
    · by_cases hq : k1 = k'
      · subst hq
        simp [appendIn, hk, bedsGet]
      · have hb : (k1 == k') = false := by simp [hq]
        simp only [appendIn, if_neg hk, bedsGet, List.find?_cons, hb]
        exact ih

/-- When the reverse index maps a feature type to exactly the nonempty key
list `ks`, the emitted category keys are exactly `ks` (the passthrough
extension does not fire). -/
lemma catKeys_of_revGet (m : Mapping) (si : List Str) (ft : Str)
    (ks : List Str) (hk : revGet m ft = ks) (hne : ks ≠ []) :
    catKeys m si ft = ks := by
  rw [catKeys, hk, revHas, hk]
  rw [if_neg, List.append_nil]
  rintro ⟨-, habs⟩
  apply hne
  cases hks : ks.isEmpty
  · rw [hks] at habs
    exact absurd habs (by decide)
  · exact List.isEmpty_iff.mp hks

/-- Claim C4: in both BED6-emitting variants, a processed record whose
feature type is mapped to exactly the two distinct category keys `k1, k2`
contributes exactly one row to each of the two category buffers, the two
rows are identical (same contig, start0, end, name, score, strand), and no
other buffer changes. -/
theorem claim_C4_fanout_two_categories :
    (∀ (m : Mapping) (si : List Str) (c : Str → Nat) (line k1 k2 : Str)
        (beds : List (Str × List Row)),
      k1 ≠ k2 → revGet m (colOf line 2) = [k1, k2] →
      (mitoLineRows m si c line).2 ≠ [] →
      ∃ row, (mitoLineRows m si c line).2 = [(k1, row), (k2, row)] ∧
        bedsGet ((mitoLineRows m si c line).2.foldl
            (fun b kr => appendIn b kr.1 kr.2) beds) k1
          = bedsGet beds k1 ++ [row] ∧
        bedsGet ((mitoLineRows m si c line).2.foldl
            (fun b kr => appendIn b kr.1 kr.2) beds) k2
          = bedsGet beds k2 ++ [row] ∧
        (∀ k', k' ≠ k1 → k' ≠ k2 →
          bedsGet ((mitoLineRows m si c line).2.foldl
              (fun b kr => appendIn b kr.1 kr.2) beds) k'
            = bedsGet beds k')) ∧
    (∀ (m : Mapping) (si : List Str) (sm : Bool) (c : Str → Nat)
        (line k1 k2 : Str) (beds : List (Str × List Row)),
      k1 ≠ k2 → revGet m (colOf line 2) = [k1, k2] →
      (gffLineRows m si sm c line).2 ≠ [] →
      ∃ row, (gffLineRows m si sm c line).2 = [(k1, row), (k2, row)] ∧
        bedsGet ((gffLineRows m si sm c line).2.foldl
            (fun b kr => appendIn b kr.1 kr.2) beds) k1
          = bedsGet beds k1 ++ [row] ∧
        bedsGet ((gffLineRows m si sm c line).2.foldl
            (fun b kr => appendIn b kr.1 kr.2) beds) k2
          = bedsGet beds k2 ++ [row] ∧
        (∀ k', k' ≠ k1 → k' ≠ k2 →
          bedsGet ((gffLineRows m si sm c line).2.foldl
              (fun b kr => appendIn b kr.1 kr.2) beds) k'
            = bedsGet beds k')) := by
  constructor
  · intro m si c line k1 k2 beds hne hcat hemit
    rcases mitoLineRows_spec m si c line with h0 | ⟨_, s, e, _, _, hrows⟩
    · exact absurd h0 hemit
    · have hck := catKeys_of_revGet m si (colOf line 2) [k1, k2] hcat (by simp)
      rw [hck] at hrows
      refine ⟨mitoRow c line s e, by rw [hrows]; rfl, ?_, ?_, ?_⟩
      · rw [hrows]
        show bedsGet (appendIn (appendIn beds k1 (mitoRow c line s e)) k2
          (mitoRow c line s e)) k1 = _
        rw [bedsGet_appendIn_ne _ k2 k1 _ hne, bedsGet_appendIn_same]
      · rw [hrows]
        show bedsGet (appendIn (appendIn beds k1 (mitoRow c line s e)) k2
          (mitoRow c line s e)) k2 = _
        rw [bedsGet_appendIn_same, bedsGet_appendIn_ne _ k1 k2 _ (Ne.symm hne)]
      · intro k' h1 h2
        rw [hrows]
        show bedsGet (appendIn (appendIn beds k1 (mitoRow c line s e)) k2
          (mitoRow c line s e)) k' = _
        rw [bedsGet_appendIn_ne _ k2 k' _ h2, bedsGet_appendIn_ne _ k1 k' _ h1]
  · intro m si sm c line k1 k2 beds hne hcat hemit
    rcases gffLineRows_spec m si sm c line with h0 | ⟨_, s, e, _, _, hrows⟩
    · exact absurd h0 hemit
    · have hck := catKeys_of_revGet m si (colOf line 2) [k1, k2] hcat (by simp)
      rw [hck] at hrows
      refine ⟨gffRow c line s e, by rw [hrows]; rfl, ?_, ?_, ?_⟩
      · rw [hrows]
        show bedsGet (appendIn (appendIn beds k1 (gffRow c line s e)) k2
          (gffRow c line s e)) k1 = _
        rw [bedsGet_appendIn_ne _ k2 k1 _ hne, bedsGet_appendIn_same]
      · rw [hrows]
        show bedsGet (appendIn (appendIn beds k1 (gffRow c line s e)) k2
          (gffRow c line s e)) k2 = _
        rw [bedsGet_appendIn_same, bedsGet_appendIn_ne _ k1 k2 _ (Ne.symm hne)]
      · intro k' h1 h2
        rw [hrows]
        show bedsGet (appendIn (appendIn beds k1 (gffRow c line s e)) k2
          (gffRow c line s e)) k' = _
        rw [bedsGet_appendIn_ne _ k2 k' _ h2, bedsGet_appendIn_ne _ k1 k' _ h1]

/-- Witness for C4, at a mapping that places feature type `gene` in the two
categories `A` and `B`, processing a concrete organelle record. -/
theorem claim_C4_witness :
    ∃ row,
      (mitoLineRows [(str "A", [str "gene"]), (str "B", [str "gene"])] []
          (fun _ => 0) (str "Mito\tsrc\tgene\t1\t10\t.\t+\t.\tID=G1")).2
        = [(str "A", row), (str "B", row)] ∧
      bedsGet ((mitoLineRows [(str "A", [str "gene"]), (str "B", [str "gene"])] []
          (fun _ => 0) (str "Mito\tsrc\tgene\t1\t10\t.\t+\t.\tID=G1")).2.foldl
          (fun b kr => appendIn b kr.1 kr.2) []) (str "A")
        = bedsGet [] (str "A") ++ [row] ∧
      bedsGet ((mitoLineRows [(str "A", [str "gene"]), (str "B", [str "gene"])] []
          (fun _ => 0) (str "Mito\tsrc\tgene\t1\t10\t.\t+\t.\tID=G1")).2.foldl
          (fun b kr => appendIn b kr.1 kr.2) []) (str "B")
        = bedsGet [] (str "B") ++ [row] ∧
      (∀ k', k' ≠ str "A" → k' ≠ str "B" →
        bedsGet ((mitoLineRows [(str "A", [str "gene"]), (str "B", [str "gene"])] []
            (fun _ => 0) (str "Mito\tsrc\tgene\t1\t10\t.\t+\t.\tID=G1")).2.foldl
            (fun b kr => appendIn b kr.1 kr.2) []) k'
          = bedsGet [] k') :=
  claim_C4_fanout_two_categories.1
    [(str "A", [str "gene"]), (str "B", [str "gene"])] [] (fun _ => 0)
    (str "Mito\tsrc\tgene\t1\t10\t.\t+\t.\tID=G1") (str "A") (str "B") []
    (by decide) (by decide) (by decide)

/-- `appendIn` never creates an empty bucket. -/
lemma appendIn_nonempty {α : Type} (b : List (Str × List α)) (k : Str) (x : α)
    (hb : ∀ kv ∈ b, kv.2 ≠ []) : ∀ kv ∈ appendIn b k x, kv.2 ≠ [] := by
  induction b with
  | nil =>
    intro kv hkv
    simp only [appendIn, List.mem_singleton] at hkv
    subst hkv
    simp
  | cons kv0 rest ih =>
    obtain ⟨k0, xs⟩ := kv0
    intro kv hkv
    by_cases h : k0 = k
    · rw [appendIn, if_pos h] at hkv
      rcases List.mem_cons.mp hkv with he | ht
      · subst he; simp
      · exact hb kv (List.mem_cons_of_mem _ ht)
    · rw [appendIn, if_neg h] at hkv
      rcases List.mem_cons.mp hkv with he | ht
      · subst he
        exact hb (k0, xs) (List.mem_cons_self _ _)
      · exact ih (fun kv h => hb kv (List.mem_cons_of_mem _ h)) kv ht

/-- Folding `appendIn` over row lists never creates an empty bucket. -/
lemma foldl_appendIn_nonempty {α : Type} (rows : List (Str × α)) :
    ∀ (b : List (Str × List α)), (∀ kv ∈ b, kv.2 ≠ []) →
    ∀ kv ∈ rows.foldl (fun b kr => appendIn b kr.1 kr.2) b, kv.2 ≠ [] := by
  induction rows with
  | nil => intro b hb; exact hb
  | cons kr rest ih =>
    intro b hb
    exact ih (appendIn b kr.1 kr.2) (appendIn_nonempty b kr.1 kr.2 hb)

/-- The buffers of a whole run (fold over input lines with any per-line
function) have no empty bucket. -/
lemma run_buffers_nonempty (f : (Str → Nat) → Str → (Str → Nat) × List (Str × Row)) :
    ∀ (lines : List Str) (st : List (Str × List Row) × (Str → Nat)),
    (∀ kv ∈ st.1, kv.2 ≠ []) →
    ∀ kv ∈ (lines.foldl (fun st line =>
        let r := f st.2 line
        (r.2.foldl (fun b kr => appendIn b kr.1 kr.2) st.1, r.1)) st).1,
      kv.2 ≠ [] := by
  intro lines
  induction lines with
  | nil => intro st hst; exact hst
  | cons line rest ih =>
    intro st hst
    rw [List.foldl_cons]
    exact ih _ (foldl_appendIn_nonempty _ _ hst)

lemma runMito_buffers_nonempty (m : Mapping) (si : List Str)
    (lines : List Str) : ∀ kv ∈ runMito m si lines, kv.2 ≠ [] :=
  run_buffers_nonempty (fun c line => mitoLineRows m si c line) lines
    ([], fun _ => 0) (by intro kv h; exact absurd h (List.not_mem_nil kv))

lemma runGff_buffers_nonempty (m : Mapping) (si : List Str) (sm : Bool)
    (lines : List Str) : ∀ kv ∈ runGff m si sm lines, kv.2 ≠ [] :=
  run_buffers_nonempty (fun c line => gffLineRows m si sm c line) lines
    ([], fun _ => 0) (by intro kv h; exact absurd h (List.not_mem_nil kv))

/-- Claim C6, counterexample: the nuclear regionDB variant violates all
three parts of the claim — it writes a file (`centromere.bed`) whose
category buffer is empty, it names the `snoRNA` category's file `sno.bed`
rather than `snoRNA.bed`, and its rows have 3 columns, not 6. -/
theorem claim_C6_counterexample :
    (nuclearMainFiles [str "chrI\tsrc\tgene\t1\t10\t.\t+\t.\tID=G1"]).contains
        (str "centromere.bed", []) = true ∧
    ((nuclearMainFiles [str "chrI\tsrc\tgene\t1\t10\t.\t+\t.\tID=G1"]).map
        (fun fr => fr.1)).contains (str "sno.bed") = true ∧
    ((nuclearMainFiles [str "chrI\tsrc\tgene\t1\t10\t.\t+\t.\tID=G1"]).map
        (fun fr => fr.1)).contains (str "snoRNA.bed") = false ∧
    (∃ fr ∈ nuclearMainFiles [str "chrI\tsrc\tgene\t1\t10\t.\t+\t.\tID=G1"],
      fr.1 = str "gene.bed" ∧ fr.2 = [[str "chrI", str "0", str "10"]]) ∧
    ([str "chrI", str "0", str "10"] : List Str).length ≠ 6 := by
  refine ⟨by decide, by decide, by decide, by decide, by decide⟩

/-- Claim C6, amended: the organelle and nuclear heuristic variants write
one file per NON-empty category buffer, named `{category}.bed`, whose rows
each have exactly the 6 BED6 columns and no header; the nuclear regionDB
variant instead writes one file per CONFIGURED feature (empty or not),
named by its `FEATURE_MAP` entry (`snoRNA` → `sno.bed`), with 3-column
rows. -/
theorem claim_C6_amended :
    (∀ (m : Mapping) (si : List Str) (lines : List Str) (fname : Str)
        (frows : List (List Str)),
      (fname, frows) ∈ write_beds (runMito m si lines) →
      ∃ key, fname = key ++ str ".bed" ∧ frows ≠ [] ∧ ∀ r ∈ frows, r.length = 6) ∧
    (∀ (m : Mapping) (si : List Str) (sm : Bool) (lines : List Str)
        (fname : Str) (frows : List (List Str)),
      (fname, frows) ∈ gffWrite (runGff m si sm lines) →
      ∃ key, fname = key ++ str ".bed" ∧ frows ≠ [] ∧ ∀ r ∈ frows, r.length = 6) ∧
    (∀ lines : List Str,
      (nuclearMainFiles lines).length = 13 ∧
      ∀ fr ∈ nuclearMainFiles lines,
        (∃ feat, (feat, fr.1) ∈ FEATURE_MAP) ∧ ∀ r ∈ fr.2, r.length = 3) := by
  refine ⟨?_, ?_, ?_⟩
  · intro m si lines fname frows hmem
    obtain ⟨kv, hkv, heq⟩ := List.mem_map.mp hmem
    have h1 : fname = kv.1 ++ str ".bed" := (congrArg Prod.fst heq).symm
    have h2 : frows = kv.2.map (fun r =>
        [r.seqid, intToStr r.start0, intToStr r.bedEnd, r.name, r.score, r.strand]) :=
      (congrArg Prod.snd heq).symm
    refine ⟨kv.1, h1, ?_, ?_⟩
    · rw [h2]
      intro habs
      exact runMito_buffers_nonempty m si lines kv hkv (List.map_eq_nil_iff.mp habs)
    · intro r hr
      rw [h2] at hr
      obtain ⟨row, _, hrow⟩ := List.mem_map.mp hr
      rw [← hrow]
      rfl
  · intro m si sm lines fname frows hmem
    obtain ⟨kv, hkv, heq⟩ := List.mem_map.mp hmem
    have h1 : fname = kv.1 ++ str ".bed" := (congrArg Prod.fst heq).symm
    have h2 : frows = kv.2.map (fun r =>
        [r.seqid, intToStr r.start0, intToStr r.bedEnd, r.name, r.score, r.strand]) :=
      (congrArg Prod.snd heq).symm
    refine ⟨kv.1, h1, ?_, ?_⟩
    · rw [h2]
      intro habs
      exact runGff_buffers_nonempty m si sm lines kv hkv (List.map_eq_nil_iff.mp habs)
    · intro r hr
      rw [h2] at hr
      obtain ⟨row, _, hrow⟩ := List.mem_map.mp hr
      rw [← hrow]
      rfl
  · intro lines
    constructor
    · simp only [nuclearMainFiles, List.length_map]
      rw [(pySorted_perm _ _).length_eq]
      rfl
    · intro fr hfr
      simp only [nuclearMainFiles] at hfr
      generalize hfks : FEATURE_MAP.map (fun kv => kv.1) = fks at hfr
      obtain ⟨feat, hfeat, heq⟩ := List.mem_map.mp hfr
      have hfeat2 : feat ∈ fks := (pySorted_perm _ fks).mem_iff.mp hfeat
      rw [← hfks] at hfeat2
      constructor
      · refine ⟨feat, ?_⟩
        have h1 : fr.1 = featureMapGet feat := (congrArg Prod.fst heq).symm
        rw [h1]
        have hlem : ∀ f ∈ FEATURE_MAP.map (fun kv => kv.1),
            (f, featureMapGet f) ∈ FEATURE_MAP := by decide
        exact hlem feat hfeat2
      · intro r hr
        have h2 : fr.2 = (sort_bed (bedsGet (parse_gff fks lines) feat)).map
            (fun e => [e.1, intToStr e.2.1, intToStr e.2.2]) :=
          (congrArg Prod.snd heq).symm
        rw [h2] at hr
        obtain ⟨ent, _, hent⟩ := List.mem_map.mp hr
        rw [← hent]
        rfl

/-- Witness for C6 amended, at the spec's end-to-end organelle example. -/
theorem claim_C6_amended_witness :
    ∃ key, str "gene.bed" = key ++ str ".bed" ∧
      ([[str "Mito", intToStr 0, intToStr 10, str "G1", str "0", str "+"]] :
        List (List Str)) ≠ [] ∧
      ∀ r ∈ ([[str "Mito", intToStr 0, intToStr 10, str "G1", str "0", str "+"]] :
        List (List Str)), r.length = 6 :=
  claim_C6_amended.1 [(str "gene", [str "gene"])] []
    [str "Mito\tsrc\tgene\t1\t10\t.\t+\t.\tID=G1"] (str "gene.bed")
    [[str "Mito", intToStr 0, intToStr 10, str "G1", str "0", str "+"]]
    (by decide)

/-- Characters with equal code points are equal. -/
lemma charToNat_inj (a b : Char) (h : a.toNat = b.toNat) : a = b := by
  have h0 : a.val.toNat = b.val.toNat := h
  have h2 : a.val = b.val := by
    rcases a with ⟨⟨av, ha⟩⟩
    rcases b with ⟨⟨bv, hb⟩⟩
    simp_all [UInt32.toNat]
  exact Char.eq_of_val_eq h2

/-- `strLt` is connex: two strings neither of which is less are equal. -/
lemma strLt_connex : ∀ a b : Str, strLt a b = false → strLt b a = false → a = b := by
  intro a
  induction a with
  | nil =>
    intro b h1 h2
    cases b with
    | nil => rfl
    | cons d u => exact absurd h1 (by rw [strLt]; simp)
  | cons c t ih =>
    intro b h1 h2
    cases b with
    | nil => exact absurd h2 (by rw [strLt]; simp)
    | cons d u =>
      by_cases hcd : c.toNat < d.toNat
      · rw [strLt, if_pos hcd] at h1
        exact absurd h1 (by decide)
      · by_cases hdc : d.toNat < c.toNat
        · rw [strLt, if_pos hdc] at h2
          exact absurd h2 (by decide)
        · have hc : c = d := charToNat_inj c d (by omega)
          subst hc
          rw [strLt, if_neg hcd, if_neg hcd] at h1 h2
          rw [ih u h1 h2]

/-- `strLt` is irreflexive. -/
lemma strLt_irrefl : ∀ a : Str, strLt a a = false := by
  intro a
  induction a with
  | nil => rfl
  | cons c t ih => rw [strLt, if_neg (by omega), if_neg (by omega)]; exact ih

/-- `strLt` is transitive. -/
lemma strLt_trans : ∀ a b c : Str, strLt a b = true → strLt b c = true →
    strLt a c = true := by
  intro a
  induction a with
  | nil =>
    intro b c h1 h2
    cases b with
    | nil => exact Bool.noConfusion h1
    | cons y ys =>
      cases c with
      | nil => exact Bool.noConfusion h2
      | cons z zs => rfl
  | cons x xs ih =>
    intro b c h1 h2
    cases b with
    | nil => exact Bool.noConfusion h1
    | cons y ys =>
      cases c with
      | nil => exact Bool.noConfusion h2
      | cons z zs =>
        by_cases hxy : x.toNat < y.toNat
        · by_cases hyz : y.toNat < z.toNat
          · rw [strLt, if_pos (by omega)]
          · by_cases hzy : z.toNat < y.toNat
            · rw [strLt, if_neg hyz, if_pos hzy] at h2
              exact absurd h2 (by decide)
            · rw [strLt, if_pos (by omega)]
        · by_cases hyx : y.toNat < x.toNat
          · rw [strLt, if_neg hxy, if_pos hyx] at h1
            exact absurd h1 (by decide)
          · rw [strLt, if_neg hxy, if_neg hyx] at h1
            by_cases hyz : y.toNat < z.toNat
            · rw [strLt, if_pos (by omega)]
            · by_cases hzy : z.toNat < y.toNat
              · rw [strLt, if_neg hyz, if_pos hzy] at h2
                exact absurd h2 (by decide)
              · rw [strLt, if_neg hyz, if_neg hzy] at h2
                rw [strLt, if_neg (by omega), if_neg (by omega)]
                exact ih ys zs h1 h2

/-- `ckLt` is connex. -/
lemma ckLt_connex (x y : CKey) (h1 : ckLt x y = false) (h2 : ckLt y x = false) :
    x = y := by
  cases x with
  | num a =>
    cases y with
    | num b =>
      have ha : ¬a < b := of_decide_eq_false h1
      have hb : ¬b < a := of_decide_eq_false h2
      exact congrArg CKey.num (by omega)
    | lex s => exact absurd h1 (by rw [ckLt]; decide)
  | lex s =>
    cases y with
    | num b => exact absurd h2 (by rw [ckLt]; decide)
    | lex t => exact congrArg CKey.lex (strLt_connex s t h1 h2)

/-- `ckLt` is irreflexive. -/
lemma ckLt_irrefl (x : CKey) : ckLt x x = false := by
  cases x with
  | num a => exact decide_eq_false (by omega)
  | lex s => exact strLt_irrefl s

/-- `ckLt` is transitive. -/
lemma ckLt_trans (x y z : CKey) (h1 : ckLt x y = true) (h2 : ckLt y z = true) :
    ckLt x z = true := by
  cases x with
  | num a =>
    cases y with
    | num b =>
      cases z with
      | num c =>
        have ha : a < b := of_decide_eq_true h1
        have hb : b < c := of_decide_eq_true h2
        exact decide_eq_true (by omega)
      | lex t => rfl
    | lex s =>
      cases z with
      | num c => exact Bool.noConfusion h2
      | lex t => rfl
  | lex s =>
    cases y with
    | num b => exact Bool.noConfusion h1
    | lex t =>
      cases z with
      | num c => exact Bool.noConfusion h2
      | lex u => exact strLt_trans s t u h1 h2

/-- A hypothesis `¬ b = true` gives `b = false`. -/
lemma bool_eq_false {b : Bool} (h : ¬ b = true) : b = false := by
  cases b
  · rfl
  · exact absurd rfl h

/-- The integer tail of the sort key is total. -/
lemma intChain_total (x1 y1 x2 y2 : Int) :
    ((if x1 < x2 then true else if x2 < x1 then false else decide (y1 ≤ y2)) ||
     (if x2 < x1 then true else if x1 < x2 then false else decide (y2 ≤ y1)))
      = true := by
  split_ifs <;> simp_all <;> omega

/-- The integer tail of the sort key is transitive. -/
lemma intChain_trans (x1 y1 x2 y2 x3 y3 : Int)
    (h1 : (if x1 < x2 then true else if x2 < x1 then false
            else decide (y1 ≤ y2)) = true)
    (h2 : (if x2 < x3 then true else if x3 < x2 then false
            else decide (y2 ≤ y3)) = true) :
    (if x1 < x3 then true else if x3 < x1 then false
      else decide (y1 ≤ y3)) = true := by
  split_ifs at h1 h2 ⊢ <;> simp_all <;> omega

/-- `entryLe` is total. -/
lemma entryLe_total (a b : Entry) : (entryLe a b || entryLe b a) = true := by
  rw [entryLe, entryLe]
  cases hab : ckLt (chrom_key a.1) (chrom_key b.1)
  · cases hba : ckLt (chrom_key b.1) (chrom_key a.1)
    · simp only [Bool.false_eq_true, if_false]
      exact intChain_total a.2.1 a.2.2 b.2.1 b.2.2
    · simp
  · simp

/-- `entryLe` is transitive. -/
lemma entryLe_trans (a b c : Entry) (h1 : entryLe a b = true)
    (h2 : entryLe b c = true) : entryLe a c = true := by
  rw [entryLe] at h1 h2 ⊢
  by_cases hab : ckLt (chrom_key a.1) (chrom_key b.1) = true
  · by_cases hbc : ckLt (chrom_key b.1) (chrom_key c.1) = true
    · rw [if_pos (ckLt_trans _ _ _ hab hbc)]
    · by_cases hcb : ckLt (chrom_key c.1) (chrom_key b.1) = true
      · rw [if_neg hbc, if_pos hcb] at h2
        exact absurd h2 (by decide)
      · have hk : chrom_key b.1 = chrom_key c.1 :=
          ckLt_connex _ _ (bool_eq_false hbc) (bool_eq_false hcb)
        rw [← hk, if_pos hab]
  · by_cases hba : ckLt (chrom_key b.1) (chrom_key a.1) = true
    · rw [if_neg hab, if_pos hba] at h1
      exact absurd h1 (by decide)
    · have hk1 : chrom_key a.1 = chrom_key b.1 :=
        ckLt_connex _ _ (bool_eq_false hab) (bool_eq_false hba)
      rw [if_neg hab, if_neg hba] at h1
      by_cases hbc : ckLt (chrom_key b.1) (chrom_key c.1) = true
      · rw [hk1, if_pos hbc]
      · by_cases hcb : ckLt (chrom_key c.1) (chrom_key b.1) = true
        · rw [if_neg hbc, if_pos hcb] at h2
          exact absurd h2 (by decide)
        · have hk2 : chrom_key b.1 = chrom_key c.1 :=
            ckLt_connex _ _ (bool_eq_false hbc) (bool_eq_false hcb)
          rw [if_neg hbc, if_neg hcb] at h2
          have hac : chrom_key a.1 = chrom_key c.1 := hk1.trans hk2
          rw [hac, ckLt_irrefl, if_neg (by decide), if_neg (by decide)]
          exact intChain_trans a.2.1 a.2.2 b.2.1 b.2.2 c.2.1 c.2.2 h1 h2

/-- Inserting into a sorted list keeps it sorted (total transitive `le`). -/
lemma pySortInsert_pairwise {α : Type} (le : α → α → Bool)
    (htot : ∀ a b, (le a b || le b a) = true)
    (htr : ∀ a b c, le a b = true → le b c = true → le a c = true)
    (x : α) : ∀ l : List α, l.Pairwise (fun a b => le a b = true) →
    (pySortInsert le x l).Pairwise (fun a b => le a b = true) := by
  intro l
  induction l with
  | nil =>
    intro _
    simp [pySortInsert]
  | cons y ys ih =>
    intro hl
    rcases List.pairwise_cons.mp hl with ⟨hy, hys⟩
    rw [pySortInsert]
    by_cases h : le x y = true
    · rw [if_pos h]
      refine List.pairwise_cons.mpr ⟨?_, hl⟩
      intro z hz
      rcases List.mem_cons.mp hz with rfl | hz2
      · exact h
      · exact htr x y z h (hy z hz2)
    · rw [if_neg h]
      refine List.pairwise_cons.mpr ⟨?_, ih hys⟩
      intro z hz
      have hz2 := (pySortInsert_perm le x ys).mem_iff.mp hz
      rcases List.mem_cons.mp hz2 with rfl | hz3
      · have h2 := htot z y
        rw [bool_eq_false h] at h2
        simpa using h2
      · exact hy z hz3

/-- The sort model produces a `le`-sorted list (total transitive `le`). -/
lemma pySorted_pairwise {α : Type} (le : α → α → Bool)
    (htot : ∀ a b, (le a b || le b a) = true)
    (htr : ∀ a b c, le a b = true → le b c = true → le a c = true) :
    ∀ l : List α, (pySorted le l).Pairwise (fun a b => le a b = true) := by
  intro l
  induction l with
  | nil => exact List.Pairwise.nil
  | cons x xs ih =>
    rw [pySorted]
    exact pySortInsert_pairwise le htot htr x (pySorted le xs) ih

/-- Modelled from the claim's wording, for comparison with the source's
`chrom_key`: a contig identifier sorts in the numeric tier exactly when it
is purely numeric; all non-numeric identifiers compare lexically. -/
def claimChromKey (c : Str) : CKey :=
  if c ≠ [] ∧ c.all Char.isDigit then .num (digitsToNat c) else .lex c

/-- The entry ordering induced by the claim's key. -/
def claimEntryLe (a b : Entry) : Bool :=
  if ckLt (claimChromKey a.1) (claimChromKey b.1) then true
  else if ckLt (claimChromKey b.1) (claimChromKey a.1) then false
  else if a.2.1 < b.2.1 then true
  else if b.2.1 < a.2.1 then false
  else a.2.2 ≤ b.2.2

/-- The sort the claim describes. -/
def claimSort (entries : List Entry) : List Entry :=
  pySorted claimEntryLe entries

/-- Claim C7, counterexample: `chrom_key` places `chr9` in the
numeric-before-lexical tier although `chr9` is not purely numeric (the
source regex also matches `chr` followed by digits), so sorting
`[chr10, chr9]` yields the numeric order `[chr9, chr10]` where the claim's
key (both identifiers lexical) yields `[chr10, chr9]`. -/
theorem claim_C7_counterexample :
    chrom_key (str "chr9") = CKey.num 9 ∧
    ((str "chr9").all Char.isDigit) = false ∧
    sort_bed [(str "chr10", ((0 : Int), (1 : Int))), (str "chr9", (0, 1))]
      = [(str "chr9", (0, 1)), (str "chr10", (0, 1))] ∧
    claimSort [(str "chr10", ((0 : Int), (1 : Int))), (str "chr9", (0, 1))]
      = [(str "chr10", (0, 1)), (str "chr9", (0, 1))] := by
  refine ⟨by decide, by decide, by decide, by decide⟩

/-- A contig with the prefix `chr` is not purely numeric. -/
lemma pre_chr_not_digits (c : Str) (hpre : isPre (str "chr") c = true) :
    c.all Char.isDigit = false := by
  cases c with
  | nil => exact Bool.noConfusion hpre
  | cons a t =>
    have h2 : ('c' == a && isPre ['h', 'r'] t) = true := hpre
    have h3 : ('c' == a) = true ∧ isPre ['h', 'r'] t = true := by
      simpa using h2
    have ha : a = 'c' := (beq_iff_eq.mp h3.1).symm
    subst ha
    simp [List.all_cons]

/-- Claim C7, amended: `sort_bed` deterministically orders the rows by the
key `(chrom_key(contig), start0, end)` — the output is a permutation of
the input sorted by that key — but the numeric-before-lexical tier holds
exactly for identifiers that are purely numeric OR `chr` followed by
digits (the source regex `^(?:chr)?(\d+)$`), not only for purely numeric
ones; all remaining identifiers compare lexically among themselves. -/
theorem claim_C7_amended :
    (∀ entries : List Entry,
      (sort_bed entries).Perm entries ∧
      (sort_bed entries).Pairwise (fun a b => entryLe a b = true)) ∧
    (∀ c : Str, (∃ n, chrom_key c = CKey.num n) ↔
      ((c ≠ [] ∧ c.all Char.isDigit = true) ∨
       (isPre (str "chr") c = true ∧ c.drop 3 ≠ [] ∧
        (c.drop 3).all Char.isDigit = true))) := by
  constructor
  · intro entries
    constructor
    · rw [sort_bed]
      exact pySorted_perm entryLe entries
    · rw [sort_bed]
      exact pySorted_pairwise entryLe entryLe_total entryLe_trans entries
  · intro c
    rw [chrom_key]
    by_cases hpre : isPre (str "chr") c = true
    · rw [if_pos hpre]
      by_cases hd : c.drop 3 ≠ [] ∧ (c.drop 3).all Char.isDigit
      · rw [if_pos hd]
        exact ⟨fun _ => Or.inr ⟨hpre, hd.1, hd.2⟩,
               fun _ => ⟨digitsToNat (c.drop 3), rfl⟩⟩
      · rw [if_neg hd]
        constructor
        · rintro ⟨n, hn⟩
          exact CKey.noConfusion hn
        · rintro (⟨hne, hdig⟩ | ⟨-, h1, h2⟩)
          · rw [pre_chr_not_digits c hpre] at hdig
            exact absurd hdig (by decide)
          · exact absurd ⟨h1, h2⟩ hd
    · rw [if_neg hpre]
      by_cases hd : c ≠ [] ∧ c.all Char.isDigit
      · rw [if_pos hd]
        exact ⟨fun _ => Or.inl ⟨hd.1, hd.2⟩, fun _ => ⟨digitsToNat c, rfl⟩⟩
      · rw [if_neg hd]
        constructor
        · rintro ⟨n, hn⟩
          exact CKey.noConfusion hn
        · rintro (⟨hne, hdig⟩ | ⟨h1, -, -⟩)
          · exact absurd ⟨hne, hdig⟩ hd
          · exact absurd h1 hpre

/-- Witness for C7 amended, at a concrete entry list and a purely numeric
contig identifier. -/
theorem claim_C7_amended_witness :
    (sort_bed [(str "chr10", ((0 : Int), (1 : Int))), (str "chr9", (0, 1))]).Perm
      [(str "chr10", (0, 1)), (str "chr9", (0, 1))] ∧
    (∃ n, chrom_key (str "12") = CKey.num n) := by
  refine ⟨(claim_C7_amended.1 _).1, ?_⟩
  exact (claim_C7_amended.2 (str "12")).mpr (Or.inl ⟨by decide, by decide⟩)
